import Mathlib

set_option maxHeartbeats 2000000

/- Shallow embedding of the RevoltDevBot repository
   (src/revoltbot/dev.py and src/revoltbot/__main__.py).
   Python strings are modelled as `List Char`; Python ints used as slice and
   search indices are modelled as `Int` (they can be negative in the source). -/

/-- Whitespace as stripped by Python `str.strip()` / split by `str.split()`,
restricted to the ASCII whitespace characters (all inputs appearing in the
claims use only these). -/
def pyIsSpace (c : Char) : Bool :=
  c = ' ' || c = '\n' || c = '\t' || c = '\r' || c = '\x0b' || c = '\x0c'

/-- `len(s.strip()) == 0`: the string is empty or pure whitespace.
`pagify` (dev.py lines 57 and 61) yields a chunk only when this is false. -/
def isBlank (s : List Char) : Bool := s.all pyIsSpace

/-- Normalisation of a Python slice index against a string of length `len`:
a negative index counts from the end (clamped at 0), a positive index is
clamped at `len`.  This is the index semantics of `s[:k]`, `s[k:]` and of the
`end` argument of `str.rfind`. -/
def pyIndex (len : Nat) (k : Int) : Nat :=
  if k < 0 then (k + len).toNat else min k.toNat len

/-- Python `s[:k]`. -/
def pyTake (s : List Char) (k : Int) : List Char := s.take (pyIndex s.length k)

/-- Python `s[k:]`. -/
def pyDrop (s : List Char) (k : Int) : List Char := s.drop (pyIndex s.length k)

/-- Does `d` occur in `t` starting at position `i`? -/
def matchesAt (t d : List Char) (i : Nat) : Bool :=
  decide ((t.drop i).take d.length = d)

/-- Downward scan used by `str.rfind`: the largest position `j` with
`s ≤ j ≤ i` at which `d` matches, or `-1`.  (`s` is the normalised `start`
argument; `pagify` always passes `start = 1`, dev.py line 50.) -/
def pyRfindAux (t d : List Char) (s : Nat) : Nat → Int
  | 0 => if s = 0 then (if matchesAt t d 0 then 0 else -1) else -1
  | i + 1 =>
    if i + 1 < s then -1
    else if matchesAt t d (i + 1) then ((i + 1 : Nat) : Int)
    else pyRfindAux t d s i

/-- Python `t.rfind(d, s, endI)`: the highest index `j ≥ s` such that `d` is
contained in `t[s:endI]` starting at `j`, or `-1`. -/
def pyRfind (t d : List Char) (s : Nat) (endI : Int) : Int :=
  let e := pyIndex t.length endI
  if d.length ≤ e then pyRfindAux t d s (e - d.length) else -1

/-- The keyword parameters of `pagify` (dev.py lines 38-45). -/
structure PagifyCfg where
  delims : List (List Char)
  priority : Bool
  shorten_by : Nat
  page_length : Nat

/-- `page_length -= shorten_by` (dev.py line 47): the adjusted page length.
Computed in `Int` because Python subtraction can go negative. -/
def adjusted (cfg : PagifyCfg) : Int :=
  (cfg.page_length : Int) - (cfg.shorten_by : Int)

/-- dev.py lines 50-54: the rfind results over all delimiters, combined with
`next((x for x in ... if x > 0), -1)` in priority mode and with `max(...)`
otherwise.  (Python `max` on an empty sequence raises; since every rfind
result is `≥ -1`, folding `max` from `-1` agrees with Python `max` on every
non-empty delimiter list, and the theorems below only quantify over non-empty
delimiter lists.) -/
def rawClosest (cfg : PagifyCfg) (t : List Char) : Int :=
  let results := cfg.delims.map (fun d => pyRfind t d 1 (adjusted cfg))
  if cfg.priority then ((results.filter (fun x => 0 < x)).head?).getD (-1)
  else results.foldl max (-1)

/-- dev.py line 55: `closest_delim if closest_delim != -1 else this_page_len`. -/
def splitPoint (cfg : PagifyCfg) (t : List Char) : Int :=
  if rawClosest cfg t ≠ -1 then rawClosest cfg t else adjusted cfg

/-- dev.py line 48: the `while len(in_text) > page_length` condition. -/
def loopCond (cfg : PagifyCfg) (t : List Char) : Bool :=
  decide (adjusted cfg < (t.length : Int))

/-- The `pagify` generator loop (dev.py lines 48-62), with explicit fuel.
Each loop iteration consumes one unit of fuel; when the adjusted page length
is at least 1 every iteration strictly shortens the text, so fuel
`t.length + 1` is enough to run the loop to completion (proved below).  In
the degenerate configurations where the source loops forever without
yielding further chunks, exhausting the fuel returns the chunks the source
yields before getting stuck. -/
def pagifyGo (cfg : PagifyCfg) : Nat → List Char → List (List Char)
  | 0, _ => []
  | fuel + 1, t =>
    if loopCond cfg t then
      (if isBlank (pyTake t (splitPoint cfg t)) then []
       else [pyTake t (splitPoint cfg t)]) ++
        pagifyGo cfg fuel (pyDrop t (splitPoint cfg t))
    else if isBlank t then [] else [t]

/-- The chunks yielded by `pagify(text, ...)` (dev.py lines 37-62). -/
def pagify (cfg : PagifyCfg) (text : List Char) : List (List Char) :=
  pagifyGo cfg (text.length + 1) text

/-- Instrumented variant of the same loop that also records the skipped
segments: each walked segment is tagged with `true` when the source yields it
and `false` when the source drops it because it is blank. -/
def pagifySegs (cfg : PagifyCfg) : Nat → List Char → List (Bool × List Char)
  | 0, _ => []
  | fuel + 1, t =>
    if loopCond cfg t then
      (!isBlank (pyTake t (splitPoint cfg t)), pyTake t (splitPoint cfg t)) ::
        pagifySegs cfg fuel (pyDrop t (splitPoint cfg t))
    else [(!isBlank t, t)]

/-- The default parameters of `pagify`: `delims=["\n"]`, `priority=False`,
`shorten_by=12`, `page_length=2000`. -/
def cfgDefault : PagifyCfg :=
  { delims := [['\n']], priority := false, shorten_by := 12, page_length := 2000 }

/-- The input `"a\n" * 2000` of the spec's pagination example. -/
def abText : List Char := List.flatten (List.replicate 2000 ['a', '\n'])

/-- Python values as far as the console cares about them: `None`, an opaque
non-awaitable object, or an awaitable wrapping the value produced by awaiting
it once. -/
inductive PyVal where
  | pynone : PyVal
  | obj : Nat → PyVal
  | awaitable : PyVal → PyVal
deriving DecidableEq, Repr

/-- `inspect.isawaitable` on the model. -/
def isawaitable : PyVal → Bool
  | .awaitable _ => true
  | _ => false

/-- `await coro`, defined on awaitables (the source only awaits after an
`isawaitable` check, so the non-awaitable case is never reached). -/
def awaited : PyVal → PyVal
  | .awaitable c => c
  | v => v

/-- The `for i in range(2)` loop of `Dev.maybe_await` (dev.py lines 111-118):
while iterations remain, an awaitable is awaited and a non-awaitable is
returned at once; after the two iterations the current value is returned
as-is. -/
def maybe_await_loop : Nat → PyVal → PyVal
  | 0, coro => coro
  | n + 1, coro => if isawaitable coro then maybe_await_loop n (awaited coro) else coro

/-- `Dev.maybe_await` (dev.py lines 111-118). -/
def maybe_await (coro : PyVal) : PyVal := maybe_await_loop 2 coro

/-- Recursion core of literal `re.sub` with a replacement budget: scan left
to right; on a match of the non-empty literal `pat`, emit `repl`, consume
the match and one unit of budget; otherwise copy one character.  The first
argument is structural fuel; every step consumes at least one character of
`s`, so fuel `s.length` always suffices (the fuel-exhausted branch is
unreachable from `reSubBudget` below). -/
def reSubGo (pat repl : List Char) : Nat → Nat → List Char → List Char
  | _, _, [] => []
  | _, 0, s => s
  | 0, _ + 1, s => s
  | f + 1, n + 1, c :: cs =>
    if 0 < pat.length ∧ (c :: cs).take pat.length = pat then
      repl ++ reSubGo pat repl f n ((c :: cs).drop pat.length)
    else
      c :: reSubGo pat repl f (n + 1) cs

/-- Replace the leftmost occurrences of the literal `pat` in a string,
left to right and non-overlapping, until the replacement budget `n` runs
out; the rest of the string is kept unchanged.  This is
`re.sub(re.escape(pat), repl, s, count)` for a positive `count` (Python
treats `count = 0` as unlimited, but `sanitize_output` below only ever
instantiates the budget at 2). -/
def reSubBudget (pat repl : List Char) (n : Nat) (s : List Char) : List Char :=
  reSubGo pat repl s.length n s

/-- `Dev.sanitize_output` (dev.py lines 129-134):
`re.sub(re.escape(token), "[EXPUNGED]", input_, re.I)`.  The fourth
positional argument of `re.sub` is `count`, not `flags`, and
`re.I == re.IGNORECASE == 2`, so this replaces at most the first two
occurrences of the token, case-sensitively. -/
def sanitize_output (token input_ : List Char) : List Char :=
  reSubBudget token "[EXPUNGED]".toList 2 input_

/-- The outcome of compiling and running an `eval` body (the parts of
`Dev.eval` that call the Python compiler and interpreter, external to the
model): a compile-time `SyntaxError` with its formatted report, a runtime
exception with the captured stdout and formatted traceback, or success with
the captured stdout and the value returned by `func()`. -/
inductive EvalOutcome where
  | syntaxError : List Char → EvalOutcome
  | runtimeError : List Char → List Char → EvalOutcome
  | ok : List Char → PyVal → EvalOutcome

/-- The outcome of compiling and evaluating a `debug` expression: a
compile-time `SyntaxError` with its formatted report, a runtime exception
with its formatted traceback, or success with the value of
`eval(compiled, env)` before `maybe_await` is applied. -/
inductive DebugOutcome where
  | syntaxError : List Char → DebugOutcome
  | runtimeError : List Char → DebugOutcome
  | ok : PyVal → DebugOutcome

/-- `Dev.eval` (dev.py lines 151-184), as a transformer of the stored
`_last_result` returning the new stored value and the text passed to
`send_blocks`: a syntax error sends the formatted error and leaves the store
alone; a runtime error sends the sanitized stdout-plus-traceback and leaves
the store alone (line 168 initialises `result = None`, so line 177 skips the
update); on success the store is updated only when the returned value is not
`None` (line 177), and the sent text appends `str(result)` to the captured
stdout in exactly that case.  `str_` models Python `str`. -/
def eval_model (token : List Char) (str_ : PyVal → List Char)
    (o : EvalOutcome) (last : PyVal) : PyVal × List Char :=
  match o with
  | .syntaxError err => (last, err)
  | .runtimeError out tb => (last, sanitize_output token (out ++ tb))
  | .ok out v =>
    if v = PyVal.pynone then (last, sanitize_output token out)
    else (v, sanitize_output token (out ++ str_ v))

/-- `Dev.debug` (dev.py lines 186-205), as a transformer of the stored
`_last_result` returning the new stored value and the text passed to
`send_blocks`: syntax and runtime errors send their report unsanitized and
leave the store alone (lines 195-200); on success the value is passed
through `maybe_await`, unconditionally stored (line 202), and its `str` is
sanitized and sent (line 203). -/
def debug_model (token : List Char) (str_ : PyVal → List Char)
    (o : DebugOutcome) (last : PyVal) : PyVal × List Char :=
  match o with
  | .syntaxError err => (last, err)
  | .runtimeError tb => (last, tb)
  | .ok v => (maybe_await v, sanitize_output token (str_ (maybe_await v)))

/-- The externally visible actions of the `on_message` handler
(`__main__.py` lines 90-117): sending a message to a channel, closing the
client connection, or handing a body to `Dev.eval` / `Dev.debug`. -/
inductive Effect where
  | send : List Char → List Char → Effect
  | close : Effect
  | runEval : List Char → Effect
  | runDebug : List Char → Effect
deriving DecidableEq, Repr

/-- Python `s.split(maxsplit=1)` with the default whitespace separator:
leading whitespace is skipped, the first whitespace-free token is taken, the
whitespace run after it is consumed, and the remainder (if non-empty) is the
second element. -/
def splitMax1 (s : List Char) : List (List Char) :=
  let s1 := s.dropWhile pyIsSpace
  if s1 = [] then []
  else
    let tok := s1.takeWhile (fun c => ! pyIsSpace c)
    let rest := (s1.dropWhile (fun c => ! pyIsSpace c)).dropWhile pyIsSpace
    if rest = [] then [tok] else [tok, rest]

/-- The command-matching tail of `on_message` (`__main__.py` lines
103-117): the chain of comparisons of the first whitespace-token against the
prefixed command names, the empty-body early return between the
`shutdown` and `eval` checks (line 111), and the final silent fall-through
for unknown commands. -/
def dispatch (pfx channelId command body : List Char) : List Effect :=
  if command = pfx ++ "ping".toList then
    [Effect.send channelId "Pong!".toList]
  else if command = pfx ++ "shutdown".toList then
    [Effect.send channelId "Shutting down...".toList, Effect.close]
  else if body = [] then []
  else if command = pfx ++ "eval".toList then [Effect.runEval body]
  else if command = pfx ++ "debug".toList then [Effect.runDebug body]
  else []

/-- The content-processing part of `on_message` (`__main__.py` lines
96-117), reached only for owner messages: a `None` content and a content
splitting into no tokens are dropped (lines 96-100), then the content is
split into command token and body (`parts[1] if len(parts) == 2 else ""`,
lines 98-102) and dispatched. -/
def handle_content (pfx channelId : List Char) :
    Option (List Char) → List Effect
  | none => []
  | some text =>
    match splitMax1 text with
    | [] => []
    | command :: rest => dispatch pfx channelId command (rest.headD [])

/-- The `on_message` handler (`__main__.py` lines 90-117) as a function of
the configured command prefix, the owner id, the message's author id,
channel id and content, returning the ordered list of its externally visible
actions: a non-owner author is dropped first (line 93), everything else is
`handle_content`. -/
def on_message (pfx ownerId authorId channelId : List Char)
    (content : Option (List Char)) : List Effect :=
  if authorId ≠ ownerId then []
  else handle_content pfx channelId content

/-- Helper for Python `s.split()` with no arguments: `acc` carries the
current token, reversed. -/
def splitAux : List Char → List Char → List (List Char)
  | [], acc => if acc = [] then [] else [acc.reverse]
  | c :: cs, acc =>
    if pyIsSpace c then
      if acc = [] then splitAux cs [] else acc.reverse :: splitAux cs []
    else splitAux cs (c :: acc)

/-- Python `s.split()` with no arguments: the maximal whitespace-free
non-empty tokens of `s`, in order. -/
def pySplit (s : List Char) : List (List Char) := splitAux s []

/-- The startup prefix validation (`__main__.py` lines 20-22): the process
proceeds exactly when `len(PREFIX.split()) == 1`, and raises
`RuntimeError("can't have prefix with spaces")` otherwise. -/
def prefixCheckPasses (p : List Char) : Bool := (pySplit p).length == 1

/-- Configuration used to exhibit the degenerate behaviour of `pagify` when
`shorten_by` exceeds `page_length`. -/
def cfgShort : PagifyCfg :=
  { delims := [['\n']], priority := false, shorten_by := 20, page_length := 12 }

/-- Second degenerate configuration (`shorten_by` exceeds `page_length`). -/
def cfgShort2 : PagifyCfg :=
  { delims := [['\n']], priority := false, shorten_by := 18, page_length := 10 }

/-- Configuration with `shorten_by = page_length`, where the adjusted page
length is 0. -/
def cfgZero : PagifyCfg :=
  { delims := [['\n']], priority := false, shorten_by := 12, page_length := 12 }

theorem pyRfindAux_spec (t d : List Char) (s : Nat) (i : Nat) :
    pyRfindAux t d s i = -1 ∨
      ((s : Int) ≤ pyRfindAux t d s i ∧ pyRfindAux t d s i ≤ (i : Int)) := by
  induction i with
  | zero =>
    unfold pyRfindAux
    by_cases hs : s = 0
    · by_cases hm : matchesAt t d 0 = true
      · right
        simp [hs, hm]
      · left
        simp [hs, hm]
    · left
      simp [hs]
  | succ n ih =>
    unfold pyRfindAux
    by_cases hlt : n + 1 < s
    · left
      simp [hlt]
    · by_cases hm : matchesAt t d (n + 1) = true
      · right
        simp only [hlt, if_false, hm, if_true]
        constructor
        · omega
        · omega
      · simp only [hlt, if_false, hm, if_true]
        rcases ih with h1 | ⟨h2, h3⟩
        · left
          simpa using h1
        · right
          refine ⟨by simpa using h2, ?_⟩
          have : pyRfindAux t d s n ≤ (n : Int) := h3
          omega

theorem pyRfind_spec (t d : List Char) (s : Nat) (endI : Int) :
    pyRfind t d s endI = -1 ∨
      ((s : Int) ≤ pyRfind t d s endI ∧
        pyRfind t d s endI ≤ (pyIndex t.length endI : Int)) := by
  unfold pyRfind
  by_cases hle : d.length ≤ pyIndex t.length endI
  · simp only [hle, if_true]
    rcases pyRfindAux_spec t d s (pyIndex t.length endI - d.length) with h | ⟨h1, h2⟩
    · left
      exact h
    · right
      refine ⟨h1, le_trans h2 ?_⟩
      exact_mod_cast Nat.cast_le.mpr (Nat.sub_le _ _)
  · left
    simp [hle]

theorem foldl_max_pred (E : Int) (l : List Int) (a : Int)
    (ha : a = -1 ∨ (1 ≤ a ∧ a ≤ E))
    (hl : ∀ x ∈ l, x = -1 ∨ (1 ≤ x ∧ x ≤ E)) :
    l.foldl max a = -1 ∨ (1 ≤ l.foldl max a ∧ l.foldl max a ≤ E) := by
  induction l generalizing a with
  | nil => exact ha
  | cons x xs ih =>
    simp only [List.foldl_cons]
    refine ih (max a x) ?_ (fun y hy => hl y (List.mem_cons_of_mem _ hy))
    have hx := hl x (List.mem_cons_self _ _)
    rcases ha with ha | ⟨ha1, ha2⟩ <;> rcases hx with hx | ⟨hx1, hx2⟩
    · left
      simp [ha, hx]
    · right
      constructor
      · calc (1 : Int) ≤ x := hx1
          _ ≤ max a x := le_max_right a x
      · have : max a x = x := max_eq_right (by omega)
        omega
    · right
      constructor
      · calc (1 : Int) ≤ a := ha1
          _ ≤ max a x := le_max_left a x
      · have : max a x = a := max_eq_left (by omega)
        omega
    · right
      exact ⟨le_trans ha1 (le_max_left a x), max_le ha2 hx2⟩

theorem rawClosest_spec (cfg : PagifyCfg) (t : List Char) :
    rawClosest cfg t = -1 ∨
      (1 ≤ rawClosest cfg t ∧
        rawClosest cfg t ≤ (pyIndex t.length (adjusted cfg) : Int)) := by
  unfold rawClosest
  by_cases hp : cfg.priority = true
  · simp only [hp, if_true]
    set results := cfg.delims.map (fun d => pyRfind t d 1 (adjusted cfg)) with hres
    cases hh : (results.filter (fun x => decide (0 < x))).head? with
    | none =>
      left
      simp [hh]
    | some x =>
      have hxmem : x ∈ results.filter (fun x => decide (0 < x)) :=
        List.mem_of_mem_head? (by simp [hh])
      have hx := List.mem_filter.mp hxmem
      have hxpos : (0 : Int) < x := by simpa using hx.2
      obtain ⟨d, _, hd⟩ := List.mem_map.mp hx.1
      rcases pyRfind_spec t d 1 (adjusted cfg) with hneg | ⟨h1, h2⟩
      · rw [hd] at hneg
        omega
      · right
        rw [hd] at h1 h2
        simp only [hh, Option.getD_some]
        exact ⟨by exact_mod_cast h1, h2⟩
  · simp only [hp, if_false]
    refine foldl_max_pred _ _ _ (Or.inl rfl) ?_
    intro x hx
    obtain ⟨d, _, hd⟩ := List.mem_map.mp hx
    rcases pyRfind_spec t d 1 (adjusted cfg) with hneg | ⟨h1, h2⟩
    · left
      omega
    · right
      rw [← hd]
      exact ⟨by exact_mod_cast h1, h2⟩

theorem pyIndex_le_len (len : Nat) (k : Int) : pyIndex len k ≤ len := by
  unfold pyIndex
  by_cases hk : k < 0
  · simp only [hk, if_true]
    omega
  · simp only [hk, if_false]
    exact Nat.min_le_right _ _

theorem pyIndex_le_of_nonneg (len : Nat) (k : Int) (hk : 0 ≤ k) :
    (pyIndex len k : Int) ≤ k := by
  unfold pyIndex
  have : ¬ k < 0 := by omega
  simp only [this, if_false]
  have h1 : min k.toNat len ≤ k.toNat := Nat.min_le_left _ _
  omega

theorem splitPoint_pos (cfg : PagifyCfg) (t : List Char)
    (h2 : 1 ≤ adjusted cfg) : 1 ≤ splitPoint cfg t := by
  unfold splitPoint
  by_cases hc : rawClosest cfg t ≠ -1
  · rw [if_pos hc]
    rcases rawClosest_spec cfg t with h | ⟨h1, _⟩
    · exact absurd h hc
    · exact h1
  · rw [if_neg hc]
    exact h2

theorem splitPoint_le (cfg : PagifyCfg) (t : List Char)
    (h2 : 1 ≤ adjusted cfg) : splitPoint cfg t ≤ adjusted cfg := by
  unfold splitPoint
  by_cases hc : rawClosest cfg t ≠ -1
  · rw [if_pos hc]
    rcases rawClosest_spec cfg t with h | ⟨_, hle⟩
    · exact absurd h hc
    · exact le_trans hle (pyIndex_le_of_nonneg _ _ (by omega))
  · rw [if_neg hc]

theorem loopCond_iff (cfg : PagifyCfg) (t : List Char) :
    loopCond cfg t = true ↔ adjusted cfg < (t.length : Int) := by
  unfold loopCond
  exact decide_eq_true_iff

theorem pyDrop_splitPoint_lt (cfg : PagifyCfg) (t : List Char)
    (h2 : 1 ≤ adjusted cfg) (hl : loopCond cfg t = true) :
    (pyDrop t (splitPoint cfg t)).length < t.length := by
  have hlen : adjusted cfg < (t.length : Int) := (loopCond_iff cfg t).mp hl
  have hsp : 1 ≤ splitPoint cfg t := splitPoint_pos cfg t h2
  unfold pyDrop
  rw [List.length_drop]
  have hne : ¬ splitPoint cfg t < 0 := by omega
  have hidx : 1 ≤ pyIndex t.length (splitPoint cfg t) := by
    unfold pyIndex
    rw [if_neg hne]
    have h1 : 1 ≤ (splitPoint cfg t).toNat := by omega
    have h1' : 1 ≤ t.length := by omega
    omega
  omega

theorem pyTake_append_pyDrop (t : List Char) (k : Int) :
    pyTake t k ++ pyDrop t k = t := by
  unfold pyTake pyDrop
  exact List.take_append_drop _ _

theorem pagifyGo_chunk_le (cfg : PagifyCfg) (h2 : 1 ≤ adjusted cfg) :
    ∀ (fuel : Nat) (t ch : List Char), ch ∈ pagifyGo cfg fuel t →
      (ch.length : Int) ≤ adjusted cfg := by
  intro fuel
  induction fuel with
  | zero =>
    intro t ch h
    simp [pagifyGo] at h
  | succ n ih =>
    intro t ch h
    unfold pagifyGo at h
    by_cases hl : loopCond cfg t = true
    · rw [if_pos hl] at h
      rcases List.mem_append.mp h with h1 | h1
      · by_cases hb : isBlank (pyTake t (splitPoint cfg t)) = true
        · rw [if_pos hb] at h1
          simp at h1
        · rw [if_neg hb] at h1
          have hch : ch = pyTake t (splitPoint cfg t) := by simpa using h1
          subst hch
          unfold pyTake
          rw [List.length_take]
          have hsp : 1 ≤ splitPoint cfg t := splitPoint_pos cfg t h2
          have hle : splitPoint cfg t ≤ adjusted cfg := splitPoint_le cfg t h2
          have hnn : ¬ splitPoint cfg t < 0 := by omega
          have : (pyIndex t.length (splitPoint cfg t) : Int) ≤ splitPoint cfg t :=
            pyIndex_le_of_nonneg _ _ (by omega)
          have hmin : min (pyIndex t.length (splitPoint cfg t)) t.length ≤
              pyIndex t.length (splitPoint cfg t) := Nat.min_le_left _ _
          omega
      · exact ih _ _ h1
    · rw [if_neg hl] at h
      have hlen : ¬ adjusted cfg < (t.length : Int) := by
        intro hcon
        exact hl ((loopCond_iff cfg t).mpr hcon)
      by_cases hb : isBlank t = true
      · rw [if_pos hb] at h
        simp at h
      · rw [if_neg hb] at h
        have hch : ch = t := by simpa using h
        subst hch
        omega

theorem pagifySegs_join (cfg : PagifyCfg) (h2 : 1 ≤ adjusted cfg) :
    ∀ (fuel : Nat) (t : List Char), t.length < fuel →
      ((pagifySegs cfg fuel t).map Prod.snd).flatten = t := by
  intro fuel
  induction fuel with
  | zero =>
    intro t h
    omega
  | succ n ih =>
    intro t h
    unfold pagifySegs
    by_cases hl : loopCond cfg t = true
    · rw [if_pos hl]
      simp only [List.map_cons, List.flatten_cons]
      have hlt : (pyDrop t (splitPoint cfg t)).length < t.length :=
        pyDrop_splitPoint_lt cfg t h2 hl
      rw [ih _ (by omega)]
      exact pyTake_append_pyDrop t (splitPoint cfg t)
    · rw [if_neg hl]
      simp

theorem pagifyGo_eq_filter (cfg : PagifyCfg) :
    ∀ (fuel : Nat) (t : List Char),
      pagifyGo cfg fuel t =
        ((pagifySegs cfg fuel t).filter Prod.fst).map Prod.snd := by
  intro fuel
  induction fuel with
  | zero =>
    intro t
    simp [pagifyGo, pagifySegs]
  | succ n ih =>
    intro t
    unfold pagifyGo pagifySegs
    by_cases hl : loopCond cfg t = true
    · rw [if_pos hl, if_pos hl]
      by_cases hb : isBlank (pyTake t (splitPoint cfg t)) = true
      · rw [if_pos hb]
        simp only [List.filter_cons, hb, Bool.not_true, List.nil_append]
        exact ih _
      · rw [if_neg hb]
        have hb' : isBlank (pyTake t (splitPoint cfg t)) = false := by
          simpa using hb
        simp only [List.filter_cons, hb', Bool.not_false, if_true,
          List.map_cons, List.singleton_append]
        rw [ih _]
    · rw [if_neg hl, if_neg hl]
      by_cases hb : isBlank t = true
      · rw [if_pos hb]
        simp [hb]
      · rw [if_neg hb]
        have hb' : isBlank t = false := by simpa using hb
        simp [hb']

theorem pagifySegs_skipped_blank (cfg : PagifyCfg) :
    ∀ (fuel : Nat) (t : List Char) (seg : Bool × List Char),
      seg ∈ pagifySegs cfg fuel t → seg.fst = false → isBlank seg.snd = true := by
  intro fuel
  induction fuel with
  | zero =>
    intro t seg h
    simp [pagifySegs] at h
  | succ n ih =>
    intro t seg h hf
    unfold pagifySegs at h
    by_cases hl : loopCond cfg t = true
    · rw [if_pos hl] at h
      rcases List.mem_cons.mp h with h1 | h1
      · subst h1
        simp only at hf ⊢
        simpa using hf
      · exact ih _ _ h1 hf
    · rw [if_neg hl] at h
      have hseg : seg = (!isBlank t, t) := by simpa using h
      subst hseg
      simp only at hf ⊢
      simpa using hf

theorem pagifyGo_chunk_nonblank (cfg : PagifyCfg) :
    ∀ (fuel : Nat) (t ch : List Char), ch ∈ pagifyGo cfg fuel t →
      isBlank ch = false := by
  intro fuel
  induction fuel with
  | zero =>
    intro t ch h
    simp [pagifyGo] at h
  | succ n ih =>
    intro t ch h
    unfold pagifyGo at h
    by_cases hl : loopCond cfg t = true
    · rw [if_pos hl] at h
      rcases List.mem_append.mp h with h1 | h1
      · by_cases hb : isBlank (pyTake t (splitPoint cfg t)) = true
        · rw [if_pos hb] at h1
          simp at h1
        · rw [if_neg hb] at h1
          have hch : ch = pyTake t (splitPoint cfg t) := by simpa using h1
          subst hch
          simpa using hb
      · exact ih _ _ h1
    · rw [if_neg hl] at h
      by_cases hb : isBlank t = true
      · rw [if_pos hb] at h
        simp at h
      · rw [if_neg hb] at h
        have hch : ch = t := by simpa using h
        subst hch
        simpa using hb

theorem pagifyGo_fuel_inv (cfg : PagifyCfg) (h2 : 1 ≤ adjusted cfg) :
    ∀ (n m : Nat) (t : List Char), t.length < n → t.length < m →
      pagifyGo cfg n t = pagifyGo cfg m t := by
  intro n
  induction n with
  | zero =>
    intro m t hn
    omega
  | succ n ih =>
    intro m t hn hm
    cases m with
    | zero => omega
    | succ m =>
      unfold pagifyGo
      by_cases hl : loopCond cfg t = true
      · rw [if_pos hl, if_pos hl]
        have hlt : (pyDrop t (splitPoint cfg t)).length < t.length :=
          pyDrop_splitPoint_lt cfg t h2 hl
        rw [ih m (pyDrop t (splitPoint cfg t)) (by omega) (by omega)]
      · rw [if_neg hl, if_neg hl]

theorem splitAux_len_of_acc (s acc : List Char) (h : acc ≠ []) :
    1 ≤ (splitAux s acc).length := by
  induction s generalizing acc with
  | nil =>
    unfold splitAux
    rw [if_neg h]
    simp
  | cons c cs ih =>
    unfold splitAux
    by_cases hc : pyIsSpace c = true
    · rw [if_pos hc, if_neg h]
      simp
    · rw [if_neg hc]
      exact ih (c :: acc) (by simp)

theorem splitAux_len_of_tok (s : List Char) :
    ∀ acc : List Char, (∃ y ∈ s, pyIsSpace y = false) →
      1 ≤ (splitAux s acc).length := by
  induction s with
  | nil =>
    intro acc h
    obtain ⟨y, hy, _⟩ := h
    simp at hy
  | cons c cs ih =>
    intro acc h
    unfold splitAux
    by_cases hc : pyIsSpace c = true
    · rw [if_pos hc]
      have h' : ∃ y ∈ cs, pyIsSpace y = false := by
        obtain ⟨y, hy, hys⟩ := h
        rcases List.mem_cons.mp hy with rfl | hy'
        · rw [hc] at hys
          exact absurd hys (by simp)
        · exact ⟨y, hy', hys⟩
      by_cases ha : acc = []
      · rw [if_pos ha]
        exact ih [] h'
      · rw [if_neg ha]
        simp
    · rw [if_neg hc]
      exact splitAux_len_of_acc cs (c :: acc) (by simp)

theorem splitAux_all_nonspace (s : List Char) :
    ∀ acc : List Char, (∀ c ∈ s, pyIsSpace c = false) → (acc ≠ [] ∨ s ≠ []) →
      splitAux s acc = [acc.reverse ++ s] := by
  induction s with
  | nil =>
    intro acc _ hne
    have ha : acc ≠ [] := by
      rcases hne with h | h
      · exact h
      · exact absurd rfl h
    unfold splitAux
    rw [if_neg ha]
    simp
  | cons c cs ih =>
    intro acc h _
    have hc : pyIsSpace c = false := h c (List.mem_cons_self _ _)
    unfold splitAux
    rw [if_neg (by simp [hc])]
    by_cases hcs : cs = []
    · subst hcs
      unfold splitAux
      rw [if_neg (by simp)]
      simp
    · rw [ih (c :: acc) (fun x hx => h x (List.mem_cons_of_mem _ hx)) (Or.inl (by simp))]
      simp

theorem splitAux_two_tokens (l : List Char) :
    ∀ (acc r : List Char) (w : Char), pyIsSpace w = true →
      (acc ≠ [] ∨ ∃ x ∈ l, pyIsSpace x = false) →
      (∃ y ∈ r, pyIsSpace y = false) →
      2 ≤ (splitAux (l ++ w :: r) acc).length := by
  induction l with
  | nil =>
    intro acc r w hw hacc hr
    have ha : acc ≠ [] := by
      rcases hacc with h | ⟨x, hx, _⟩
      · exact h
      · simp at hx
    simp only [List.nil_append]
    unfold splitAux
    rw [if_pos hw, if_neg ha]
    have := splitAux_len_of_tok r [] hr
    simp only [List.length_cons]
    omega
  | cons c cs ih =>
    intro acc r w hw hacc hr
    simp only [List.cons_append]
    unfold splitAux
    by_cases hc : pyIsSpace c = true
    · rw [if_pos hc]
      by_cases ha : acc = []
      · rw [if_pos ha]
        have hcs : ∃ x ∈ cs, pyIsSpace x = false := by
          rcases hacc with h | ⟨x, hx, hxs⟩
          · exact absurd ha h
          · rcases List.mem_cons.mp hx with rfl | hx'
            · rw [hc] at hxs
              exact absurd hxs (by simp)
            · exact ⟨x, hx', hxs⟩
        exact ih [] r w hw (Or.inr hcs) hr
      · rw [if_neg ha]
        have h1 : 1 ≤ (splitAux (cs ++ w :: r) []).length := by
          refine splitAux_len_of_tok _ [] ?_
          obtain ⟨y, hy, hys⟩ := hr
          exact ⟨y, by simp [hy], hys⟩
        simp only [List.length_cons]
        omega
    · rw [if_neg hc]
      exact ih (c :: acc) r w hw (Or.inl (by simp)) hr

theorem dropWhile_ws_of_all (s : List Char)
    (h : ∀ c ∈ s, pyIsSpace c = false) : s.dropWhile pyIsSpace = s := by
  cases s with
  | nil => rfl
  | cons c cs =>
    have hc : pyIsSpace c = false := h c (List.mem_cons_self _ _)
    simp [List.dropWhile_cons, hc]

theorem takeWhile_not_ws_of_all (s : List Char)
    (h : ∀ c ∈ s, pyIsSpace c = false) :
    s.takeWhile (fun c => ! pyIsSpace c) = s := by
  induction s with
  | nil => rfl
  | cons c cs ih =>
    have hc : pyIsSpace c = false := h c (List.mem_cons_self _ _)
    simp only [List.takeWhile_cons, hc, Bool.not_false, if_true]
    rw [ih (fun x hx => h x (List.mem_cons_of_mem _ hx))]

theorem dropWhile_not_ws_of_all (s : List Char)
    (h : ∀ c ∈ s, pyIsSpace c = false) :
    s.dropWhile (fun c => ! pyIsSpace c) = [] := by
  induction s with
  | nil => rfl
  | cons c cs ih =>
    have hc : pyIsSpace c = false := h c (List.mem_cons_self _ _)
    simp only [List.dropWhile_cons, hc, Bool.not_false, if_true]
    exact ih (fun x hx => h x (List.mem_cons_of_mem _ hx))

theorem splitMax1_all_nonspace (s : List Char)
    (h : ∀ c ∈ s, pyIsSpace c = false) (hne : s ≠ []) :
    splitMax1 s = [s] := by
  unfold splitMax1
  rw [dropWhile_ws_of_all s h]
  rw [if_neg hne]
  rw [takeWhile_not_ws_of_all s h, dropWhile_not_ws_of_all s h]
  simp

/-- C1: the claim says every occurrence of the active token, in any letter
case, is replaced by `[EXPUNGED]` before transmission.  The source passes
`re.I` (numeric value 2) as the `count` argument of `re.sub`, so the code
actually replaces at most the first two occurrences, case-sensitively: a
result text that is a lowercase variant of the token is transmitted
unchanged, and a third occurrence survives verbatim.  The last conjunct
evaluates the `eval` entry point at such a failing input: the transmitted
text still contains the token up to case. -/
theorem C1_token_redaction_bug :
    sanitize_output "AB".toList "ab".toList = "ab".toList ∧
    sanitize_output "AB".toList "ABABAB".toList = "[EXPUNGED][EXPUNGED]AB".toList ∧
    (sanitize_output "AB".toList "ABABAB".toList).drop 20 = "AB".toList ∧
    (eval_model "AB".toList (fun _ => []) (EvalOutcome.ok "ab".toList PyVal.pynone)
        PyVal.pynone).2 = "ab".toList := by
  refine ⟨by decide, by decide, by decide, by decide⟩

/-- C2: a message from a non-owner author produces no effect at all,
whatever its content; the exact text `"!shutdown"` from the owner (with the
prefix configured as `"!"`) produces exactly one reply followed by the
connection close. -/
theorem C2_command_routing (pfx owner author ch : List Char)
    (content : Option (List Char)) (h : author ≠ owner) :
    on_message pfx owner author ch content = [] ∧
    on_message "!".toList owner owner ch (some "!shutdown".toList) =
      [Effect.send ch "Shutting down...".toList, Effect.close] := by
  constructor
  · unfold on_message
    rw [if_pos h]
  · unfold on_message
    rw [if_neg (not_not_intro rfl)]
    rfl

/-- Witness for C2 at concrete inputs. -/
theorem C2_command_routing_witness :
    on_message "!".toList "o".toList "x".toList "c".toList (some "!shutdown".toList) = [] ∧
    on_message "!".toList "o".toList "o".toList "c".toList (some "!shutdown".toList) =
      [Effect.send "c".toList "Shutting down...".toList, Effect.close] :=
  C2_command_routing "!".toList "o".toList "x".toList "c".toList
    (some "!shutdown".toList) (by decide)

/-- C3 counterexample: the claim says every successful invocation updates
the stored last-result, in particular every successful `eval`.  In the
source (dev.py line 177) `eval` updates `_last_result` only when the
returned value is not `None`: a successful body returning `None` leaves a
previously stored value `obj 5` untouched. -/
theorem C3_counterexample :
    (eval_model [] (fun _ => []) (EvalOutcome.ok [] PyVal.pynone)
        (PyVal.obj 5)).1 = PyVal.obj 5 ∧
    PyVal.pynone ≠ PyVal.obj 5 :=
  ⟨rfl, by decide⟩

/-- C3 amended: syntax errors and runtime errors leave the stored
last-result unchanged in both entry points; a successful `debug` always
stores its (double-awaited) result, even `None`; a successful `eval` stores
its result exactly when that result is not `None`. -/
theorem C3_last_result_update (token : List Char) (str_ : PyVal → List Char)
    (last v : PyVal) (e tb out : List Char) (hv : v ≠ PyVal.pynone) :
    (eval_model token str_ (EvalOutcome.syntaxError e) last).1 = last ∧
    (eval_model token str_ (EvalOutcome.runtimeError out tb) last).1 = last ∧
    (eval_model token str_ (EvalOutcome.ok out v) last).1 = v ∧
    (eval_model token str_ (EvalOutcome.ok out PyVal.pynone) last).1 = last ∧
    (debug_model token str_ (DebugOutcome.syntaxError e) last).1 = last ∧
    (debug_model token str_ (DebugOutcome.runtimeError tb) last).1 = last ∧
    (debug_model token str_ (DebugOutcome.ok v) last).1 = maybe_await v := by
  refine ⟨rfl, rfl, ?_, rfl, rfl, rfl, rfl⟩
  simp only [eval_model]
  rw [if_neg hv]

/-- Witness for C3 amended at concrete inputs. -/
theorem C3_last_result_update_witness :
    PyVal.obj 2 ≠ PyVal.pynone ∧
    ((eval_model [] (fun _ => []) (EvalOutcome.syntaxError []) (PyVal.obj 1)).1 =
        PyVal.obj 1 ∧
      (eval_model [] (fun _ => []) (EvalOutcome.runtimeError [] []) (PyVal.obj 1)).1 =
        PyVal.obj 1 ∧
      (eval_model [] (fun _ => []) (EvalOutcome.ok [] (PyVal.obj 2)) (PyVal.obj 1)).1 =
        PyVal.obj 2 ∧
      (eval_model [] (fun _ => []) (EvalOutcome.ok [] PyVal.pynone) (PyVal.obj 1)).1 =
        PyVal.obj 1 ∧
      (debug_model [] (fun _ => []) (DebugOutcome.syntaxError []) (PyVal.obj 1)).1 =
        PyVal.obj 1 ∧
      (debug_model [] (fun _ => []) (DebugOutcome.runtimeError []) (PyVal.obj 1)).1 =
        PyVal.obj 1 ∧
      (debug_model [] (fun _ => []) (DebugOutcome.ok (PyVal.obj 2)) (PyVal.obj 1)).1 =
        maybe_await (PyVal.obj 2)) :=
  ⟨by decide, C3_last_result_update [] (fun _ => []) (PyVal.obj 1) (PyVal.obj 2)
    [] [] [] (by decide)⟩

/-- C4: `maybe_await` performs at most two awaits.  A non-awaitable value is
returned unchanged; a value wrapped in exactly two awaitable layers is fully
resolved; a value wrapped in three layers comes back after exactly two
awaits, still awaitable, and the loop stops; `debug` stores and reports
exactly `maybe_await` of the evaluated value. -/
theorem C4_double_await (b v : PyVal) (token : List Char)
    (str_ : PyVal → List Char) (last : PyVal) (h : isawaitable b = false) :
    maybe_await b = b ∧
    maybe_await (PyVal.awaitable (PyVal.awaitable b)) = b ∧
    maybe_await (PyVal.awaitable (PyVal.awaitable (PyVal.awaitable b))) =
      PyVal.awaitable b ∧
    isawaitable (PyVal.awaitable b) = true ∧
    (debug_model token str_ (DebugOutcome.ok v) last).1 = maybe_await v := by
  refine ⟨?_, rfl, rfl, rfl, rfl⟩
  unfold maybe_await maybe_await_loop
  rw [if_neg (by simp [h])]

/-- Witness for C4 at concrete inputs. -/
theorem C4_double_await_witness :
    isawaitable (PyVal.obj 0) = false ∧
    (maybe_await (PyVal.obj 0) = PyVal.obj 0 ∧
      maybe_await (PyVal.awaitable (PyVal.awaitable (PyVal.obj 0))) = PyVal.obj 0 ∧
      maybe_await (PyVal.awaitable (PyVal.awaitable (PyVal.awaitable (PyVal.obj 0)))) =
        PyVal.awaitable (PyVal.obj 0) ∧
      isawaitable (PyVal.awaitable (PyVal.obj 0)) = true ∧
      (debug_model [] (fun _ => []) (DebugOutcome.ok (PyVal.obj 1)) PyVal.pynone).1 =
        maybe_await (PyVal.obj 1)) :=
  ⟨by decide, C4_double_await (PyVal.obj 0) (PyVal.obj 1) [] (fun _ => [])
    PyVal.pynone (by decide)⟩

theorem abBlock_length (n : Nat) :
    (List.flatten (List.replicate n ['a', '\n'])).length = 2 * n := by
  induction n with
  | zero => rfl
  | succ m ih =>
    rw [List.replicate_succ, List.flatten_cons]
    simp only [List.length_append, ih, List.length_cons, List.length_nil]
    omega

theorem abBlock_drop_even (k : Nat) :
    ∀ n : Nat, k ≤ n →
      (List.flatten (List.replicate n ['a', '\n'])).drop (2 * k) =
        List.flatten (List.replicate (n - k) ['a', '\n']) := by
  induction k with
  | zero =>
    intro n _
    simp
  | succ j ih =>
    intro n hk
    cases n with
    | zero => omega
    | succ m =>
      rw [List.replicate_succ, List.flatten_cons]
      rw [show 2 * (j + 1) = 2 * j + 1 + 1 by ring]
      simp only [List.cons_append, List.nil_append, List.drop_succ_cons]
      rw [ih m (by omega), show m + 1 - (j + 1) = m - j by omega]

theorem abBlock_take_even (k : Nat) :
    ∀ n : Nat, k ≤ n →
      (List.flatten (List.replicate n ['a', '\n'])).take (2 * k) =
        List.flatten (List.replicate k ['a', '\n']) := by
  induction k with
  | zero =>
    intro n _
    simp
  | succ j ih =>
    intro n hk
    cases n with
    | zero => omega
    | succ m =>
      rw [List.replicate_succ, List.flatten_cons]
      rw [show 2 * (j + 1) = 2 * j + 1 + 1 by ring]
      simp only [List.cons_append, List.nil_append, List.take_succ_cons]
      rw [ih m (by omega)]
      rw [List.replicate_succ, List.flatten_cons]
      simp

theorem abBlock_drop_odd (k n : Nat) (h : k < n) :
    (List.flatten (List.replicate n ['a', '\n'])).drop (2 * k + 1) =
      '\n' :: List.flatten (List.replicate (n - k - 1) ['a', '\n']) := by
  have h1 : (List.flatten (List.replicate n ['a', '\n'])).drop (2 * k + 1) =
      ((List.flatten (List.replicate n ['a', '\n'])).drop (2 * k)).drop 1 := by
    rw [List.drop_drop]
  rw [h1, abBlock_drop_even k n (by omega)]
  have h2 : n - k = (n - k - 1) + 1 := by omega
  rw [h2, List.replicate_succ, List.flatten_cons]
  simp

theorem abBlock_take_odd (k n : Nat) (h : k < n) :
    (List.flatten (List.replicate n ['a', '\n'])).take (2 * k + 1) =
      List.flatten (List.replicate k ['a', '\n']) ++ ['a'] := by
  rw [List.take_add, abBlock_take_even k n (by omega), abBlock_drop_even k n (by omega)]
  have h2 : n - k = (n - k - 1) + 1 := by omega
  rw [h2, List.replicate_succ, List.flatten_cons]
  simp

theorem abBlock_getLast (n : Nat) (h : 1 ≤ n) :
    (List.flatten (List.replicate n ['a', '\n'])).getLast? = some '\n' := by
  have h2 : n = (n - 1) + 1 := by omega
  rw [h2, List.replicate_succ', List.flatten_append]
  rw [show List.flatten [['a', '\n']] = ['a'] ++ ['\n'] from rfl,
    ← List.append_assoc]
  exact List.getLast?_concat _

theorem abBlock_nonblank (n : Nat) (h : 1 ≤ n) :
    isBlank (List.flatten (List.replicate n ['a', '\n'])) = false := by
  have h2 : n = (n - 1) + 1 := by omega
  rw [h2, List.replicate_succ, List.flatten_cons]
  simp [isBlank, pyIsSpace]

theorem matchesAt_newline_odd (k n : Nat) (h : k < n) :
    matchesAt (List.flatten (List.replicate n ['a', '\n'])) ['\n'] (2 * k + 1) = true := by
  unfold matchesAt
  rw [abBlock_drop_odd k n h]
  simp

theorem matchesAt_newline_even (k n : Nat) (h : k < n) :
    matchesAt (List.flatten (List.replicate n ['a', '\n'])) ['\n'] (2 * k) = false := by
  unfold matchesAt
  rw [abBlock_drop_even k n (by omega)]
  rw [show n - k = (n - k - 1) + 1 by omega, List.replicate_succ, List.flatten_cons]
  simp

theorem matchesAt_cons (c : Char) (X d : List Char) (i : Nat) :
    matchesAt (c :: X) d (i + 1) = matchesAt X d i := by
  unfold matchesAt
  rw [List.drop_succ_cons]

theorem isBlank_append_a (Y : List Char) : isBlank (Y ++ ['a']) = false := by
  simp [isBlank, List.all_append, pyIsSpace]

theorem pagifyGo_step (cfg : PagifyCfg) (fuel : Nat) (t : List Char)
    (hl : loopCond cfg t = true)
    (hb : isBlank (pyTake t (splitPoint cfg t)) = false) :
    pagifyGo cfg (fuel + 1) t =
      pyTake t (splitPoint cfg t) :: pagifyGo cfg fuel (pyDrop t (splitPoint cfg t)) := by
  conv_lhs => unfold pagifyGo
  rw [if_pos hl, if_neg (by simp [hb])]
  simp

theorem pagifyGo_last (cfg : PagifyCfg) (fuel : Nat) (t : List Char)
    (hl : loopCond cfg t = false) (hb : isBlank t = false) :
    pagifyGo cfg (fuel + 1) t = [t] := by
  conv_lhs => unfold pagifyGo
  rw [if_neg (by simp [hl]), if_neg (by simp [hb])]

theorem adjusted_cfgDefault : adjusted cfgDefault = 1988 := by decide

theorem abText_eq : abText = List.flatten (List.replicate 2000 ['a', '\n']) := rfl

theorem abText_length : abText.length = 4000 := by
  rw [abText_eq, abBlock_length]

theorem rfaux_abText : pyRfindAux abText ['\n'] 1 1987 = 1987 := by
  rw [show (1987 : Nat) = 1986 + 1 from rfl]
  rw [pyRfindAux]
  rw [if_neg (by omega)]
  have hm : matchesAt abText ['\n'] (1986 + 1) = true := by
    rw [abText_eq, show (1986 + 1 : Nat) = 2 * 993 + 1 from rfl]
    exact matchesAt_newline_odd 993 2000 (by omega)
  rw [hm]
  norm_num

theorem rfind_abText : pyRfind abText ['\n'] 1 (adjusted cfgDefault) = 1987 := by
  rw [adjusted_cfgDefault]
  unfold pyRfind
  have he : pyIndex abText.length 1988 = 1988 := by
    rw [abText_length]
    decide
  rw [he]
  rw [if_pos (by norm_num)]
  rw [show 1988 - ['\n'].length = 1987 by simp]
  exact rfaux_abText

theorem rawClosest_abText : rawClosest cfgDefault abText = 1987 := by
  have hd : cfgDefault.delims = [['\n']] := rfl
  have hp : cfgDefault.priority = false := rfl
  unfold rawClosest
  rw [hd, hp]
  simp only [List.map_cons, List.map_nil, Bool.false_eq_true, if_false,
    List.foldl_cons, List.foldl_nil, rfind_abText]
  norm_num

theorem splitPoint_abText : splitPoint cfgDefault abText = 1987 := by
  unfold splitPoint
  rw [rawClosest_abText]
  norm_num

theorem loopCond_abText : loopCond cfgDefault abText = true := by
  rw [loopCond_iff, adjusted_cfgDefault, abText_length]
  norm_num

theorem take_abText : pyTake abText (1987 : Int) =
    List.flatten (List.replicate 993 ['a', '\n']) ++ ['a'] := by
  unfold pyTake
  rw [abText_length, show pyIndex 4000 1987 = 1987 by decide]
  rw [abText_eq, show (1987 : Nat) = 2 * 993 + 1 from rfl]
  exact abBlock_take_odd 993 2000 (by omega)

theorem drop_abText : pyDrop abText (1987 : Int) =
    '\n' :: List.flatten (List.replicate 1006 ['a', '\n']) := by
  unfold pyDrop
  rw [abText_length, show pyIndex 4000 1987 = 1987 by decide]
  rw [abText_eq, show (1987 : Nat) = 2 * 993 + 1 from rfl]
  rw [abBlock_drop_odd 993 2000 (by omega)]

theorem abRest1_length :
    ('\n' :: List.flatten (List.replicate 1006 ['a', '\n'])).length = 2013 := by
  rw [List.length_cons, abBlock_length]

theorem loopCond_abRest1 :
    loopCond cfgDefault ('\n' :: List.flatten (List.replicate 1006 ['a', '\n'])) = true := by
  rw [loopCond_iff, adjusted_cfgDefault, abRest1_length]
  norm_num

theorem rfaux_abRest1 :
    pyRfindAux ('\n' :: List.flatten (List.replicate 1006 ['a', '\n'])) ['\n'] 1 1987 =
      1986 := by
  rw [show (1987 : Nat) = 1986 + 1 from rfl]
  rw [pyRfindAux]
  rw [if_neg (by omega)]
  have hm1 : matchesAt ('\n' :: List.flatten (List.replicate 1006 ['a', '\n']))
      ['\n'] (1986 + 1) = false := by
    rw [matchesAt_cons, show (1986 : Nat) = 2 * 993 from rfl]
    exact matchesAt_newline_even 993 1006 (by omega)
  rw [hm1]
  simp only [Bool.false_eq_true, if_false]
  rw [show (1986 : Nat) = 1985 + 1 from rfl]
  rw [pyRfindAux]
  rw [if_neg (by omega)]
  have hm2 : matchesAt ('\n' :: List.flatten (List.replicate 1006 ['a', '\n']))
      ['\n'] (1985 + 1) = true := by
    rw [matchesAt_cons, show (1985 : Nat) = 2 * 992 + 1 from rfl]
    exact matchesAt_newline_odd 992 1006 (by omega)
  rw [hm2]
  norm_num

theorem rfind_abRest1 :
    pyRfind ('\n' :: List.flatten (List.replicate 1006 ['a', '\n'])) ['\n'] 1
      (adjusted cfgDefault) = 1986 := by
  rw [adjusted_cfgDefault]
  unfold pyRfind
  have he : pyIndex ('\n' :: List.flatten (List.replicate 1006 ['a', '\n'])).length
      1988 = 1988 := by
    rw [abRest1_length]
    decide
  rw [he]
  rw [if_pos (by norm_num)]
  rw [show 1988 - ['\n'].length = 1987 by simp]
  exact rfaux_abRest1

theorem rawClosest_abRest1 :
    rawClosest cfgDefault ('\n' :: List.flatten (List.replicate 1006 ['a', '\n'])) =
      1986 := by
  have hd : cfgDefault.delims = [['\n']] := rfl
  have hp : cfgDefault.priority = false := rfl
  unfold rawClosest
  rw [hd, hp]
  simp only [List.map_cons, List.map_nil, Bool.false_eq_true, if_false,
    List.foldl_cons, List.foldl_nil, rfind_abRest1]
  norm_num

theorem splitPoint_abRest1 :
    splitPoint cfgDefault ('\n' :: List.flatten (List.replicate 1006 ['a', '\n'])) =
      1986 := by
  unfold splitPoint
  rw [rawClosest_abRest1]
  norm_num

theorem take_abRest1 :
    pyTake ('\n' :: List.flatten (List.replicate 1006 ['a', '\n'])) (1986 : Int) =
      '\n' :: (List.flatten (List.replicate 992 ['a', '\n']) ++ ['a']) := by
  unfold pyTake
  rw [abRest1_length, show pyIndex 2013 1986 = 1986 by decide]
  rw [show (1986 : Nat) = 1985 + 1 from rfl, List.take_succ_cons]
  rw [show (1985 : Nat) = 2 * 992 + 1 from rfl]
  rw [abBlock_take_odd 992 1006 (by omega)]

theorem drop_abRest1 :
    pyDrop ('\n' :: List.flatten (List.replicate 1006 ['a', '\n'])) (1986 : Int) =
      '\n' :: List.flatten (List.replicate 13 ['a', '\n']) := by
  unfold pyDrop
  rw [abRest1_length, show pyIndex 2013 1986 = 1986 by decide]
  rw [show (1986 : Nat) = 1985 + 1 from rfl, List.drop_succ_cons]
  rw [show (1985 : Nat) = 2 * 992 + 1 from rfl]
  rw [abBlock_drop_odd 992 1006 (by omega)]

theorem abRest2_length :
    ('\n' :: List.flatten (List.replicate 13 ['a', '\n'])).length = 27 := by
  rw [List.length_cons, abBlock_length]

theorem loopCond_abRest2 :
    loopCond cfgDefault ('\n' :: List.flatten (List.replicate 13 ['a', '\n'])) =
      false := by
  have h : ¬ adjusted cfgDefault <
      (('\n' :: List.flatten (List.replicate 13 ['a', '\n'])).length : Int) := by
    rw [adjusted_cfgDefault, abRest2_length]
    norm_num
  unfold loopCond
  simpa using h

theorem isBlank_abRest1_chunk :
    isBlank ('\n' :: (List.flatten (List.replicate 992 ['a', '\n']) ++ ['a'])) =
      false := by
  unfold isBlank
  rw [List.all_cons, List.all_append]
  rw [show pyIsSpace '\n' = true from by decide,
    show ['a'].all pyIsSpace = false from by decide]
  rw [Bool.and_false, Bool.and_false]

theorem isBlank_abRest2 :
    isBlank ('\n' :: List.flatten (List.replicate 13 ['a', '\n'])) = false := by
  rw [show (13 : Nat) = 12 + 1 from rfl, List.replicate_succ, List.flatten_cons]
  unfold isBlank
  rw [show ('\n' :: ('a' :: '\n' :: [] ++ (List.replicate 12 ['a', '\n']).flatten)) =
    '\n' :: 'a' :: ('\n' :: [] ++ (List.replicate 12 ['a', '\n']).flatten) from rfl]
  rw [List.all_cons, List.all_cons]
  rw [show pyIsSpace '\n' = true from by decide,
    show pyIsSpace 'a' = false from by decide]
  rw [Bool.false_and, Bool.and_false]

theorem isBlank_abText_chunk :
    isBlank (List.flatten (List.replicate 993 ['a', '\n']) ++ ['a']) = false :=
  isBlank_append_a _

theorem pagify_abText :
    pagify cfgDefault abText =
      [List.flatten (List.replicate 993 ['a', '\n']) ++ ['a'],
        '\n' :: (List.flatten (List.replicate 992 ['a', '\n']) ++ ['a']),
        '\n' :: List.flatten (List.replicate 13 ['a', '\n'])] := by
  unfold pagify
  rw [abText_length]
  rw [pagifyGo_step cfgDefault 4000 abText loopCond_abText
    (by rw [splitPoint_abText, take_abText]; exact isBlank_abText_chunk)]
  rw [splitPoint_abText, take_abText, drop_abText]
  rw [pagifyGo_step cfgDefault 3999
    ('\n' :: List.flatten (List.replicate 1006 ['a', '\n'])) loopCond_abRest1
    (by rw [splitPoint_abRest1, take_abRest1]; exact isBlank_abRest1_chunk)]
  rw [splitPoint_abRest1, take_abRest1, drop_abRest1]
  rw [pagifyGo_last cfgDefault 3998
    ('\n' :: List.flatten (List.replicate 13 ['a', '\n'])) loopCond_abRest2
    isBlank_abRest2]

theorem chunk1_length :
    (List.flatten (List.replicate 993 ['a', '\n']) ++ ['a']).length = 1987 := by
  rw [List.length_append, abBlock_length]
  rfl

theorem chunk1_head :
    (List.flatten (List.replicate 993 ['a', '\n']) ++ ['a']).head? = some 'a' := by
  rw [show (993 : Nat) = 992 + 1 from rfl, List.replicate_succ, List.flatten_cons]
  rfl

theorem chunk1_getLast :
    (List.flatten (List.replicate 993 ['a', '\n']) ++ ['a']).getLast? = some 'a' :=
  List.getLast?_concat _

theorem chunk2_length :
    ('\n' :: (List.flatten (List.replicate 992 ['a', '\n']) ++ ['a'])).length =
      1986 := by
  rw [List.length_cons, List.length_append, abBlock_length]
  rfl

theorem chunk2_head :
    ('\n' :: (List.flatten (List.replicate 992 ['a', '\n']) ++ ['a'])).head? =
      some '\n' := rfl

theorem chunk2_getLast :
    ('\n' :: (List.flatten (List.replicate 992 ['a', '\n']) ++ ['a'])).getLast? =
      some 'a' := by
  rw [← List.cons_append]
  exact List.getLast?_concat _

theorem chunk3_length :
    ('\n' :: List.flatten (List.replicate 13 ['a', '\n'])).length = 27 :=
  abRest2_length

theorem chunk3_head :
    ('\n' :: List.flatten (List.replicate 13 ['a', '\n'])).head? = some '\n' := rfl

theorem chunk3_getLast :
    ('\n' :: List.flatten (List.replicate 13 ['a', '\n'])).getLast? = some '\n' := by
  rw [show (13 : Nat) = 12 + 1 from rfl, List.replicate_succ', List.flatten_append]
  rw [show List.flatten [['a', '\n']] = ['a'] ++ ['\n'] from rfl]
  rw [← List.append_assoc, ← List.cons_append]
  exact List.getLast?_concat _

/-- C5 counterexample: the claim quantifies over every `shorten_by` margin,
but with `shorten_by = 20` and `page_length = 12` the adjusted page length is
`-8`, and on 30 characters of `"a"` the source yields a 22-character chunk
(`in_text[:-8]`), which exceeds `page_length - shorten_by = -8`. -/
theorem C5_counterexample :
    (pagify cfgShort (List.replicate 30 'a')).map List.length = [22] ∧
    ¬ ((22 : Int) ≤ (cfgShort.page_length : Int) - (cfgShort.shorten_by : Int)) := by
  constructor
  · decide
  · decide

/-- C5 amended: the backward delimiter search (start index 1) can never
report position 0; and whenever `shorten_by < page_length`, every chunk
yielded by `pagify` has at most `page_length - shorten_by` characters and
every split point of the loop is at least 1. -/
theorem C5_chunk_bound (cfg : PagifyCfg) (t ch : List Char)
    (h2 : cfg.shorten_by < cfg.page_length) :
    rawClosest cfg t ≠ 0 ∧
    (ch ∈ pagify cfg t →
      (ch.length : Int) ≤ (cfg.page_length : Int) - (cfg.shorten_by : Int)) ∧
    (loopCond cfg t = true → 1 ≤ splitPoint cfg t) := by
  have h2' : 1 ≤ adjusted cfg := by
    unfold adjusted
    omega
  refine ⟨?_, ?_, fun _ => splitPoint_pos cfg t h2'⟩
  · rcases rawClosest_spec cfg t with h | ⟨h1, _⟩ <;> omega
  · intro hm
    have hb := pagifyGo_chunk_le cfg h2' _ _ _ hm
    unfold adjusted at hb
    exact hb

/-- Witness for C5 amended at concrete inputs. -/
theorem C5_chunk_bound_witness :
    cfgDefault.shorten_by < cfgDefault.page_length ∧
    ("ab".toList.length : Int) ≤
      (cfgDefault.page_length : Int) - (cfgDefault.shorten_by : Int) :=
  ⟨by decide,
    (C5_chunk_bound cfgDefault "ab".toList "ab".toList (by decide)).2.1 (by decide)⟩

/-- C6 counterexample: on `"a\n" * 2000` with default settings the source
yields three chunks; the first two end with `'a'` (the split excludes the
delimiter, which starts the next chunk), so it is false that every chunk
except possibly the last ends immediately after a newline. -/
theorem C6_counterexample :
    (pagify cfgDefault abText).map (fun c => c.getLast?) =
      [some 'a', some 'a', some '\n'] ∧
    (pagify cfgDefault abText).length = 3 ∧
    some 'a' ≠ some '\n' := by
  rw [pagify_abText]
  refine ⟨?_, rfl, by decide⟩
  simp only [List.map_cons, List.map_nil]
  rw [chunk1_getLast, chunk2_getLast, chunk3_getLast]

/-- C6 amended: on `"a\n" * 2000` with default settings `pagify` yields
chunks of lengths 1987, 1986 and 27, all within the 1988 bound; every chunk
except the first starts with a newline, every chunk except the last ends
with `'a'` immediately before a newline (the delimiter is excluded from its
chunk and begins the next one), and only the final chunk ends with a
newline. -/
theorem C6_example_chunks :
    (pagify cfgDefault abText).map (fun c => (c.length, c.head?, c.getLast?)) =
      [(1987, some 'a', some 'a'), (1986, some '\n', some 'a'),
        (27, some '\n', some '\n')] ∧
    ((1987 : Nat) ≤ 1988 ∧ (1986 : Nat) ≤ 1988 ∧ (27 : Nat) ≤ 1988) := by
  constructor
  · rw [pagify_abText]
    simp only [List.map_cons, List.map_nil]
    rw [chunk1_length, chunk1_head, chunk1_getLast, chunk2_length, chunk2_head,
      chunk2_getLast, chunk3_length, chunk3_head, chunk3_getLast]
  · omega

/-- C7 counterexample: the claim quantifies over every configuration, but
with `shorten_by = 18` and `page_length = 10` on 25 characters of `"a"` (no
whitespace at all, so nothing may be dropped) the source yields a single
17-character chunk and then loops forever on the remaining 8 characters
without yielding them: the concatenation of the yielded chunks does not
reconstruct the input. -/
theorem C7_counterexample :
    (List.replicate 25 'a').any pyIsSpace = false ∧
    List.flatten (pagify cfgShort2 (List.replicate 25 'a')) ≠
      List.replicate 25 'a' := by
  constructor
  · decide
  · decide

/-- C7 amended: for a non-empty delimiter list and `shorten_by <
page_length`, the walked segments concatenate back to the input exactly, the
yielded chunks are precisely the segments that are not pure whitespace,
every skipped segment is pure whitespace, and every yielded chunk contains a
non-whitespace character. -/
theorem C7_reconstruction (cfg : PagifyCfg) (t : List Char)
    (seg : Bool × List Char) (ch : List Char)
    (_hd : cfg.delims ≠ []) (h2 : cfg.shorten_by < cfg.page_length) :
    ((pagifySegs cfg (t.length + 1) t).map Prod.snd).flatten = t ∧
    pagify cfg t = ((pagifySegs cfg (t.length + 1) t).filter Prod.fst).map Prod.snd ∧
    (seg ∈ pagifySegs cfg (t.length + 1) t → seg.fst = false →
      isBlank seg.snd = true) ∧
    (ch ∈ pagify cfg t → isBlank ch = false) := by
  have h2' : 1 ≤ adjusted cfg := by
    unfold adjusted
    omega
  exact ⟨pagifySegs_join cfg h2' _ t (by omega), pagifyGo_eq_filter cfg _ t,
    fun hm hf => pagifySegs_skipped_blank cfg _ t seg hm hf,
    fun hm => pagifyGo_chunk_nonblank cfg _ t ch hm⟩

/-- Witness for C7 amended at concrete inputs. -/
theorem C7_reconstruction_witness :
    cfgDefault.delims ≠ [] ∧ cfgDefault.shorten_by < cfgDefault.page_length ∧
    ((pagifySegs cfgDefault ("ab".toList.length + 1) "ab".toList).map
      Prod.snd).flatten = "ab".toList :=
  ⟨by decide, by decide,
    (C7_reconstruction cfgDefault "ab".toList (true, "ab".toList) "ab".toList
      (by decide) (by decide)).1⟩

/-- C8 counterexample: the claim says each loop iteration strictly shortens
the remaining text for every `shorten_by` margin; with `shorten_by =
page_length = 12` the adjusted page length is 0, and on input `"hello"` the
loop condition holds, the iteration yields nothing (the candidate chunk is
empty, hence blank) and leaves the text unchanged, so the source loops
forever; the fuel-indexed model yields no chunk. -/
theorem C8_counterexample :
    loopCond cfgZero "hello".toList = true ∧
    pyDrop "hello".toList (splitPoint cfgZero "hello".toList) = "hello".toList ∧
    isBlank (pyTake "hello".toList (splitPoint cfgZero "hello".toList)) = true ∧
    pagifyGo cfgZero 6 "hello".toList = [] := by
  refine ⟨by decide, by decide, by decide, by decide⟩

/-- C8 amended: for a non-empty delimiter list and `shorten_by <
page_length`, every loop iteration strictly shortens the remaining text, so
any fuel beyond the text length computes the same finite chunk sequence:
the generator terminates. -/
theorem C8_termination (cfg : PagifyCfg) (t : List Char) (fuel : Nat)
    (_hd : cfg.delims ≠ []) (h2 : cfg.shorten_by < cfg.page_length) :
    (loopCond cfg t = true → (pyDrop t (splitPoint cfg t)).length < t.length) ∧
    (t.length < fuel → pagifyGo cfg fuel t = pagify cfg t) := by
  have h2' : 1 ≤ adjusted cfg := by
    unfold adjusted
    omega
  exact ⟨fun hl => pyDrop_splitPoint_lt cfg t h2' hl,
    fun hf => pagifyGo_fuel_inv cfg h2' fuel (t.length + 1) t hf (by omega)⟩

/-- Witness for C8 amended at concrete inputs. -/
theorem C8_termination_witness :
    cfgDefault.delims ≠ [] ∧ cfgDefault.shorten_by < cfgDefault.page_length ∧
    pagifyGo cfgDefault 7 "ab".toList = pagify cfgDefault "ab".toList :=
  ⟨by decide, by decide,
    (C8_termination cfgDefault "ab".toList 7 (by decide) (by decide)).2 (by decide)⟩

/-- C9 counterexample: the claim says every prefix containing any whitespace
character aborts the process, but the check `len(PREFIX.split()) != 1`
accepts the prefix `" a"`: `str.split()` discards leading whitespace, so the
split has exactly one token and startup proceeds although the prefix
contains a space. -/
theorem C9_counterexample :
    prefixCheckPasses (' ' :: 'a' :: []) = true ∧
    ' ' ∈ (' ' :: 'a' :: []) ∧ pyIsSpace ' ' = true := by
  refine ⟨by decide, by decide, by decide⟩

/-- C9 amended: the startup validation accepts exactly the prefixes whose
whitespace-split has one token.  Every non-empty prefix free of whitespace
passes; every prefix with an internal whitespace character (one with
non-whitespace characters somewhere before and somewhere after it) yields at
least two tokens and aborts; but a prefix whose whitespace is only leading
or trailing passes. -/
theorem C9_prefix_validation (p l r : List Char) (w : Char)
    (hp1 : p ≠ []) (hp2 : ∀ c ∈ p, pyIsSpace c = false)
    (hw : pyIsSpace w = true)
    (hl : ∃ x ∈ l, pyIsSpace x = false) (hr : ∃ y ∈ r, pyIsSpace y = false) :
    prefixCheckPasses p = true ∧ prefixCheckPasses (l ++ w :: r) = false := by
  constructor
  · unfold prefixCheckPasses pySplit
    rw [splitAux_all_nonspace p [] hp2 (Or.inr hp1)]
    rfl
  · unfold prefixCheckPasses pySplit
    have h2 := splitAux_two_tokens l [] r w hw (Or.inr hl) hr
    have hne : (splitAux (l ++ w :: r) []).length ≠ 1 := by omega
    simpa using hne

/-- Witness for C9 amended at concrete inputs. -/
theorem C9_prefix_validation_witness :
    prefixCheckPasses ['a', 'b'] = true ∧
    prefixCheckPasses (['a'] ++ ' ' :: ['b']) = false :=
  C9_prefix_validation ['a', 'b'] ['a'] ['b'] ' '
    (by decide) (by decide) (by decide) (by decide) (by decide)

/-- C10: an owner message whose content is exactly the `eval` or `debug`
command token (any whitespace-free non-empty prefix) has an empty remaining
body, so the handler returns after the `if not body` check with no effect:
no reply is sent, nothing is compiled or executed, and the stored
last-result is untouched (the console is never invoked, as witnessed by the
empty effect list containing no `runEval`/`runDebug`). -/
theorem C10_empty_body (pfx owner ch : List Char)
    (hp1 : pfx ≠ []) (hp2 : ∀ c ∈ pfx, pyIsSpace c = false) :
    on_message pfx owner owner ch (some (pfx ++ "eval".toList)) = [] ∧
    on_message pfx owner owner ch (some (pfx ++ "debug".toList)) = [] := by
  have heval : ∀ c ∈ "eval".toList, pyIsSpace c = false := by decide
  have hdebug : ∀ c ∈ "debug".toList, pyIsSpace c = false := by decide
  have hde : dispatch pfx ch (pfx ++ "eval".toList) [] = [] := by
    unfold dispatch
    rw [if_neg fun hcon =>
      absurd (List.append_cancel_left hcon) (by decide)]
    rw [if_neg fun hcon =>
      absurd (List.append_cancel_left hcon) (by decide)]
    rw [if_pos rfl]
  have hdd : dispatch pfx ch (pfx ++ "debug".toList) [] = [] := by
    unfold dispatch
    rw [if_neg fun hcon =>
      absurd (List.append_cancel_left hcon) (by decide)]
    rw [if_neg fun hcon =>
      absurd (List.append_cancel_left hcon) (by decide)]
    rw [if_pos rfl]
  constructor
  · unfold on_message
    rw [if_neg (not_not_intro rfl)]
    simp only [handle_content]
    rw [splitMax1_all_nonspace (pfx ++ "eval".toList)
      (by
        intro c hc
        rcases List.mem_append.mp hc with h | h
        · exact hp2 c h
        · exact heval c h)
      (List.append_ne_nil_of_left_ne_nil hp1 _)]
    exact hde
  · unfold on_message
    rw [if_neg (not_not_intro rfl)]
    simp only [handle_content]
    rw [splitMax1_all_nonspace (pfx ++ "debug".toList)
      (by
        intro c hc
        rcases List.mem_append.mp hc with h | h
        · exact hp2 c h
        · exact hdebug c h)
      (List.append_ne_nil_of_left_ne_nil hp1 _)]
    exact hdd

/-- Witness for C10 at concrete inputs. -/
theorem C10_empty_body_witness :
    on_message "!".toList "o".toList "o".toList "c".toList
      (some ("!".toList ++ "eval".toList)) = [] ∧
    on_message "!".toList "o".toList "o".toList "c".toList
      (some ("!".toList ++ "debug".toList)) = [] :=
  C10_empty_body "!".toList "o".toList "c".toList (by decide) (by decide)
